import Mathlib

/-!
Shallow embedding of the crawl/validation pipeline of the
price-comparison-scraper repository, together with theorems checking the
natural-language specification against it.

The embedded code lives in `price_scraper/price_scraper/`:
  * `items.py` — `clean_text`, `parse_price` (field normalizers);
  * `pipelines.py` — `DropDuplicatesPipeline`, `RequiredFieldsPipeline`,
    `JsonLinesExportPipeline`;
  * `middlewares.py` — `CustomRetryMiddleware`;
  * `spiders/*.py` — the category-discovery and product-detail spiders.

Python values flowing through the pipelines are modelled by the closed
`Value` type (the shapes that actually occur: none, strings, numbers,
specification dictionaries); Python dicts are modelled as association
lists with first-occurrence update semantics; machine floats produced by
`float(...)` on digit/dot strings are modelled exactly as rationals.
-/

namespace PriceScraper

/-- A Python value as it occurs in scraped items: `None`, a string, a
number (price), or a specifications dictionary (section → key → value). -/
inductive Value where
  | vnone : Value
  | vstr (s : String) : Value
  | vnum (q : ℚ) : Value
  | vdict (d : List (String × List (String × String))) : Value
deriving DecidableEq, Repr

/-- Python truthiness for the values of `Value` (`bool(x)`). -/
def truthy : Value → Bool
  | .vnone => false
  | .vstr s => s ≠ ""
  | .vnum q => q ≠ 0
  | .vdict d => d ≠ []

/-- A scraped item, as seen through `ItemAdapter`: a field map. -/
abbrev Item := List (String × Value)

/-- Association-list lookup (Python `k in d` / `d[k]`), structural so
that concrete instances kernel-evaluate. -/
def lookupA {β : Type} : List (String × β) → String → Option β
  | [], _ => none
  | (k, v) :: rest, f => if k = f then some v else lookupA rest f

/-- Python `adapter.get(field)`: the field's value, `None` when the field is
absent (Python's `.get` returns `None` in both cases). -/
def getF (it : Item) (f : String) : Value :=
  match lookupA it f with
  | some v => v
  | none => .vnone

/-- Dict-style update of an association list: replace the value at the
first occurrence of the key, keeping its position, else append. This is
`d[k] = v` on a duplicate-free association list. -/
def updA {β : Type} : List (String × β) → String → β → List (String × β)
  | [], k, v => [(k, v)]
  | (k', v') :: rest, k, v =>
      if k' = k then (k, v) :: rest else (k', v') :: updA rest k v

/-- Python `adapter[field] = value`. -/
def setF (it : Item) (f : String) (v : Value) : Item := updA it f v

/-- Whitespace tokenization of a character list (Python `str.split()`):
`cur` accumulates the current token in reverse. Structural, so that the
kernel can evaluate it on concrete strings. -/
def tokensAux : List Char → List Char → List (List Char)
  | cur, [] => if cur = [] then [] else [cur.reverse]
  | cur, c :: rest =>
    if c.isWhitespace then
      if cur = [] then tokensAux [] rest else cur.reverse :: tokensAux [] rest
    else tokensAux (c :: cur) rest

/-- Join character-list tokens with single spaces (`" ".join(...)`). -/
def joinSpace : List (List Char) → List Char
  | [] => []
  | [t] => t
  | t :: ts => t ++ ' ' :: joinSpace ts

/-- Join strings with single spaces, keeping empty entries
(`" ".join(...)` on a list of strings). -/
def joinSpaceStr : List String → String
  | [] => ""
  | [t] => t
  | t :: ts => t ++ " " ++ joinSpaceStr ts

/-- Python `str.strip()`. -/
def trimStr (s : String) : String :=
  String.mk (((s.toList.dropWhile Char.isWhitespace).reverse.dropWhile
    Char.isWhitespace).reverse)

/-- Python `s.startswith(pre)`. -/
def startsWithStr (s pre : String) : Bool := pre.toList.isPrefixOf s.toList

/-- Occurrence test on character lists (`needle` occurs in `hay`). -/
def containsChars : List Char → List Char → Bool
  | hay, needle =>
    if needle.isPrefixOf hay then true
    else
      match hay with
      | [] => false
      | _ :: rest => containsChars rest needle

/-- Function `clean_text` from `items.py`: split on whitespace runs and re-join
with single spaces (`" ".join(str(text).split()).strip()`). -/
def cleanText (s : String) : String :=
  String.mk (joinSpace (tokensAux [] s.toList))

/-- The characters `parse_price` keeps: `re.sub(r"[^\d.]", "", text)`
keeps digits and the decimal point. -/
def priceKeptChar (c : Char) : Bool := c.isDigit || c = '.'

/-- The cleaned remainder of a price string. -/
def cleanedOf (text : String) : String :=
  String.mk (text.toList.filter priceKeptChar)

/-- Number of decimal points in a string (`cleaned_text.count(".")`). -/
def dotCount (s : String) : Nat := (s.toList.filter (fun c => c = '.')).length

/-- Numeric value of a digit character list (most significant first). -/
def digitsVal (l : List Char) : Nat :=
  l.foldl (fun a c => a * 10 + (c.toNat - 48)) 0

/-- Split a character list at every `'.'` (Python `s.split(".")`, so a
string with `n` dots yields `n + 1` parts). -/
def splitDot : List Char → List Char → List (List Char)
  | cur, [] => [cur.reverse]
  | cur, c :: rest =>
    if c = '.' then cur.reverse :: splitDot [] rest
    else splitDot (c :: cur) rest

/-- Exact value of Python's `float(cleaned)` on a string made of digits
and at most one decimal point; `none` when `float` raises `ValueError`,
which on such strings happens exactly for the digit-free string `"."`. -/
def parseDecimal (s : String) : Option ℚ :=
  match splitDot [] s.toList with
  | [intPart] => if intPart = [] then none else some (digitsVal intPart)
  | [intPart, fracPart] =>
      if intPart = [] ∧ fracPart = [] then none
      else some ((digitsVal intPart : ℚ) +
        (digitsVal fracPart : ℚ) / (10 : ℚ) ^ fracPart.length)
  | _ => none

/-- Function `parse_price` from `items.py`: strip non-digit/non-dot characters,
reject empty or multi-dot remainders, parse, and reject non-positive
results. The `try/except` around `float` is the `none` branch of
`parseDecimal`. -/
def parsePrice (text : String) : Option ℚ :=
  if text = "" then none
  else
    let cleaned := cleanedOf text
    if cleaned = "" ∨ 1 < dotCount cleaned then none
    else
      match parseDecimal cleaned with
      | none => none
      | some price => if 0 < price then some price else none

/-- The absence condition C4 asserts for `parse_price`, written from the
claim's words (for comparison with the code): input falsy, remainder
empty, more than one decimal point, or the remainder parses to a
non-positive number. -/
def parsePriceClaimAbsent (text : String) : Prop :=
  text = "" ∨ cleanedOf text = "" ∨ 1 < dotCount (cleanedOf text) ∨
    ∃ q : ℚ, parseDecimal (cleanedOf text) = some q ∧ q ≤ 0

/-! Section: `DropDuplicatesPipeline` (`pipelines.py`) -/

/-- Map `DropDuplicatesPipeline.DUPLICATE_KEY_FIELD_MAP.get(spider.name)`. -/
def DUPLICATE_KEY_FIELD_MAP : String → Option String
  | "ryans_categories" => some "category_url"
  | "ryans_product_details" => some "url"
  | "startech_categories" => some "category_url"
  | "startech_product_details" => some "url"
  | _ => none

/-- Method `DropDuplicatesPipeline.process_item`: the result (`some item` =
returned, `none` = `DropItem` raised) together with the updated
`keys_seen` set (modelled as a list of `(key_field, key_value)` pairs). -/
def dropDupProcess (sp : String) (seen : List (String × Value)) (it : Item) :
    Option Item × List (String × Value) :=
  match DUPLICATE_KEY_FIELD_MAP sp with
  | none => (some it, seen)
  | some keyField =>
    let keyValue := getF it keyField
    if ¬ truthy keyValue then (some it, seen)
    else if (keyField, keyValue) ∈ seen then (none, seen)
    else (some it, (keyField, keyValue) :: seen)

/-- One run of the duplicate-dropping stage over a stream of items,
starting from the given `keys_seen` state (a fresh run starts from `[]`,
since each crawl builds the pipeline anew with an empty set). Each item
is paired with `true` when it was forwarded, `false` when dropped. -/
def dropDupRun (sp : String) (seen : List (String × Value)) :
    List Item → List (Item × Bool)
  | [] => []
  | it :: rest =>
    let r := dropDupProcess sp seen it
    (it, r.1.isSome) :: dropDupRun sp r.2 rest

/-- The forwarding pattern the spec describes (first-seen-wins), written
from the claim's words: an item is forwarded exactly when its key value
was not borne by any earlier item of the run. -/
def firstSeenFlags (key : Item → Value) : List Value → List Item → List Bool
  | _, [] => []
  | prev, it :: rest =>
      decide (key it ∉ prev) :: firstSeenFlags key (key it :: prev) rest

/-! Section: `RequiredFieldsPipeline` (`pipelines.py`) -/

/-- Map `RequiredFieldsPipeline.ESSENTIAL_FIELDS_MAP.get(spider.name, [])`. -/
def ESSENTIAL_FIELDS_MAP : String → List String
  | "ryans_product_details" => ["name", "price", "url", "sku", "availability", "brand"]
  | "startech_product_details" => ["name", "price", "url", "availability", "product_code", "brand"]
  | _ => []

/-- Map `RequiredFieldsPipeline.IMPORTANT_FIELDS_MAP.get(spider.name, [])`. -/
def IMPORTANT_FIELDS_MAP : String → List String
  | "ryans_product_details" => ["specifications"]
  | "startech_product_details" => ["specifications"]
  | _ => []

/-- Check `adapter.get("price") is None or adapter["price"] <= 0`, on the
price values the normalizer actually produces (a number or `None`). -/
def priceInvalid : Value → Bool
  | .vnone => true
  | .vnum q => q ≤ 0
  | _ => false

/-- Python `isinstance(value, dict)`. -/
def isDictV : Value → Bool
  | .vdict _ => true
  | _ => false

/-- The `missing_essential` list built by `process_item`: every essential
field whose value is falsy, plus the extra `"price (invalid/missing)"`
tag when `price` is essential and `adapter.get("price") is None or
adapter["price"] <= 0`. -/
def missingEssential (ess : List String) (it : Item) : List String :=
  let base := ess.filter (fun f => ¬ truthy (getF it f))
  if "price" ∈ ess ∧ priceInvalid (getF it "price") = true
  then base ++ ["price (invalid/missing)"]
  else base

/-- The tag the important-field loop appends for one field, following the
`if value is None / elif not isinstance(value, dict) / elif not value`
chain of `process_item` (the dict checks apply to `specifications`). -/
def importantTag (f : String) (v : Value) : Option String :=
  if v = .vnone then some (f ++ " (None)")
  else if f = "specifications" ∧ isDictV v = false then some (f ++ " (not dict)")
  else if f = "specifications" ∧ truthy v = false then some (f ++ " (empty dict)")
  else none

/-- The `missing_important` list of `process_item`. -/
def missingImportant (imp : List String) (it : Item) : List String :=
  imp.filterMap (fun f => importantTag f (getF it f))

/-- Method `RequiredFieldsPipeline.process_item`: `.error msg` models `DropItem`
with the list of failing-field names the warning joins; `.ok it'` models
returning the (possibly specification-normalized) item. -/
def requiredFieldsProcess (sp : String) (it : Item) : Except (List String) Item :=
  let ess := ESSENTIAL_FIELDS_MAP sp
  let imp := IMPORTANT_FIELDS_MAP sp
  let missE := missingEssential ess it
  if missE ≠ [] then .error missE
  else
    let missI := missingImportant imp it
    if "specifications (not dict)" ∈ missI ∨ "specifications (empty dict)" ∈ missI ∨
        "specifications (None)" ∈ missI
    then .ok (setF it "specifications" .vnone)
    else .ok it

/-- A malformed `specifications` value in the soft-validation tier:
`None`, not a dictionary, or an empty dictionary. -/
def specBad (v : Value) : Prop :=
  v = .vnone ∨ (¬ ∃ d, v = .vdict d) ∨ v = .vdict []

/-- The shape the spec promises for forwarded records' `specifications`:
a non-empty mapping or the explicit absent sentinel. -/
def specGood (v : Value) : Prop :=
  v = .vnone ∨ ∃ d, v = .vdict d ∧ d ≠ []

/-! Section: Category-discovery spiders (`ryans_categories.py`,
`startech_categories.py`)

Hrefs in the navigation menus are site-relative paths; `response.urljoin`
on such a path keeps the host and replaces the path, which is what `Url`
and `urljoin` model. `urlparse(absolute_url).path` is the `path` field. -/

/-- An absolute URL, split as `urlparse` sees it. -/
structure Url where
  host : String
  path : String
deriving DecidableEq, Repr

/-- Python `response.urljoin(relative_url)` for a site-relative href. -/
def urljoin (base : Url) (rel : String) : Url := ⟨base.host, rel⟩

/-- One candidate navigation link: its `href` attribute (if any) and the
text node the loader reads `category_name` from. -/
structure NavLink where
  href : Option String
  text : String
deriving DecidableEq, Repr

/-- A yielded `CategoryItem` after loader processing. -/
structure CategoryRec where
  categoryName : String
  categoryUrl : Url
deriving DecidableEq, Repr

/-- Set `RyansCategoriesSpider.ignored_paths`. -/
def ryansIgnoredPaths : List String := ["/", ""]

/-- The loop body of `RyansCategoriesSpider.parse` over the candidate
links, threading `seen_urls`: skip links with no href or a bare `#`;
skip when the absolute URL is already seen, its path is ignored, or it
equals the response URL; load the item and yield it only when the
cleaned name is non-empty (the loader's `TakeFirst` drops empty texts,
and the adapter check requires a truthy `category_name`). -/
def ryansCatAux (respUrl : Url) (seen : List Url) : List NavLink → List CategoryRec
  | [] => []
  | l :: rest =>
    match l.href with
    | none => ryansCatAux respUrl seen rest
    | some href =>
      if href = "" ∨ trimStr href = "#" then ryansCatAux respUrl seen rest
      else
        let absUrl := urljoin respUrl href
        if absUrl ∈ seen ∨ absUrl.path ∈ ryansIgnoredPaths ∨ absUrl = respUrl then
          ryansCatAux respUrl seen rest
        else
          let nm := cleanText l.text
          if nm ≠ "" then ⟨nm, absUrl⟩ :: ryansCatAux respUrl (absUrl :: seen) rest
          else ryansCatAux respUrl seen rest

/-- Method `RyansCategoriesSpider.parse` on the links of the seed page. -/
def ryansCatParse (respUrl : Url) (links : List NavLink) : List CategoryRec :=
  ryansCatAux respUrl [] links

/-- The loop body of `StartechCategoriesSpider.parse`: identical to the
ryans one except that it has no ignored-path set and no comparison with
the response URL — only the href/`#` check and `seen_urls`. -/
def startechCatAux (respUrl : Url) (seen : List Url) : List NavLink → List CategoryRec
  | [] => []
  | l :: rest =>
    match l.href with
    | none => startechCatAux respUrl seen rest
    | some href =>
      if href = "" ∨ trimStr href = "#" then startechCatAux respUrl seen rest
      else
        let absUrl := urljoin respUrl href
        if absUrl ∈ seen then startechCatAux respUrl seen rest
        else
          let nm := cleanText l.text
          if nm ≠ "" then ⟨nm, absUrl⟩ :: startechCatAux respUrl (absUrl :: seen) rest
          else startechCatAux respUrl seen rest

/-- Method `StartechCategoriesSpider.parse` on the links of the seed page. -/
def startechCatParse (respUrl : Url) (links : List NavLink) : List CategoryRec :=
  startechCatAux respUrl [] links

/-- The seed URL of the concrete three-link scenario of the spec. -/
def seedUrl : Url := ⟨"https://www.example-site", "/"⟩

/-- The spec's concrete seed page: three nav links — a bare `#`, the home
path `/` (named), and `/category/x` named `"  X  "`. -/
def scenarioLinks : List NavLink :=
  [⟨some "#", "Menu"⟩, ⟨some "/", "Home"⟩, ⟨some "/category/x", "  X  "⟩]

/-! Section: Product-detail spiders: `start_requests`
(`ryans_product_details.py`, `startech_product_details.py`)

A line of the category file is modelled after `json.loads`: either
malformed JSON, or a JSON object with its optional `category_url` value
(a string or some other JSON value) and optional `category_name`. -/

/-- A JSON value found under `category_url`. -/
inductive JVal where
  | jVstr (s : String) : JVal
  | jVother : JVal
deriving DecidableEq, Repr

/-- One line of the category sink file, after the `json.loads` attempt. -/
inductive JLine where
  | badJson : JLine
  | record (url : Option JVal) (name : Option String) : JLine
deriving DecidableEq, Repr

/-- A fetch request yielded by `start_requests`: the category URL and the
`category_name` carried in `meta`. -/
structure CatRequest where
  url : String
  categoryName : String
deriving DecidableEq, Repr

/-- Python `"sub" in s` (substring test). -/
def containsSub (s sub : String) : Bool := containsChars s.toList sub.toList

/-- The ryans validity check on a `category_url` string: truthy and
starting with the category URL prefix (`not cat_url or not
isinstance(cat_url, str) or not cat_url.startswith(...)`, negated). -/
def ryansUrlOk (s : String) : Bool :=
  s ≠ "" && startsWithStr s "https://www.ryans.com/category/"

/-- The startech validity check on a `category_url` string: truthy and
containing the allowed domain (`self.allowed_domains[0] not in cat_url`,
negated). -/
def startechUrlOk (s : String) : Bool :=
  s ≠ "" && containsSub s "startech.com.bd"

/-- The default `category_name` for line `n`
(`f"Unknown Category Line {line_num}"`). -/
def defaultCatName (n : Nat) : String := "Unknown Category Line " ++ toString n

/-- The `category_url` a line contributes, `none` when the line is
skipped by validation: malformed JSON, missing/non-string/invalid URL. -/
def lineUrl (urlOk : String → Bool) : JLine → Option String
  | .badJson => none
  | .record url _ =>
    match url with
    | some (.jVstr s) => if urlOk s then some s else none
    | _ => none

/-- The line loop shared by both product spiders' `start_requests`
(they differ only in the URL validity check): `n` is the 1-based line
number, `processed` the `processed_urls` set. A valid, not-yet-seen URL
yields one request carrying the line's `category_name` (or the per-line
default); everything else is skipped and processing continues. -/
def startAux (urlOk : String → Bool) :
    Nat → List String → List JLine → List CatRequest
  | _, _, [] => []
  | n, processed, l :: rest =>
    match l with
    | .badJson => startAux urlOk (n + 1) processed rest
    | .record url name =>
      match url with
      | some (.jVstr s) =>
        if urlOk s then
          if s ∈ processed then startAux urlOk (n + 1) processed rest
          else ⟨s, name.getD (defaultCatName n)⟩ ::
            startAux urlOk (n + 1) (s :: processed) rest
        else startAux urlOk (n + 1) processed rest
      | _ => startAux urlOk (n + 1) processed rest

/-- Method `RyansProductDetailsSpider.start_requests`: `none` models an absent
category file (the spider logs an error and yields nothing). -/
def ryansStart : Option (List JLine) → List CatRequest
  | none => []
  | some lines => startAux ryansUrlOk 1 [] lines

/-- Method `StartechProductDetailsSpider.start_requests`. -/
def startechStart : Option (List JLine) → List CatRequest
  | none => []
  | some lines => startAux startechUrlOk 1 [] lines

/-- First-occurrence deduplication of a URL stream (spec-side view of the
`processed_urls` filtering), threading the already-seen set. -/
def dedupFirstAux (seen : List String) : List String → List String
  | [] => []
  | s :: rest =>
      if s ∈ seen then dedupFirstAux seen rest
      else s :: dedupFirstAux (s :: seen) rest

/-! Section: Specification-table extraction (`parse_product_detail`)

`Specs` is the Python dict `specs` (section → key/value dict), with
dict insertion-order semantics modelled by `updA`. -/

/-- The nested specifications dictionary being built. -/
abbrev Specs := List (String × List (String × String))

/-- Python `if current_section not in specs: specs[current_section] = dict()` then
`specs[current_section][key] = value`. -/
def insertKV (specs : Specs) (sec k v : String) : Specs :=
  match lookupA specs sec with
  | none => specs ++ [(sec, [(k, v)])]
  | some d => updA specs sec (updA d k v)

/-- A `<tr>` inside a startech spec-table `tbody`: the optional
`td.name::text` node and the `td.value ::text` nodes. -/
structure StRow where
  keyText : Option String
  valueTexts : List String
deriving DecidableEq, Repr

/-- A direct child of the startech `table.data-table`: a `thead` (whose
`td.heading-row::text` may be present) or a `tbody` with rows. -/
inductive TableElem where
  | theadE (headingText : Option String) : TableElem
  | tbodyE (rows : List StRow) : TableElem
deriving DecidableEq, Repr

/-- The key/value pair a startech row records, `none` when either side is
missing or empty after cleaning (`key = clean_text(key_elem) if key_elem
else None`, `value = clean_text(" ".join(value_elems).strip()) if
value_elems else None`, then `if key and value`). -/
def stKV (r : StRow) : Option (String × String) :=
  let key := match r.keyText with
    | some k => if k ≠ "" then cleanText k else ""
    | none => ""
  let value := match r.valueTexts with
    | [] => ""
    | vs => cleanText (trimStr (joinSpaceStr vs))
  if key ≠ "" ∧ value ≠ "" then some (key, value) else none

/-- Processing one startech data row against the current section. -/
def stRowStep (cur : String) (specs : Specs) (r : StRow) : Specs :=
  match stKV r with
  | none => specs
  | some (k, v) => insertKV specs cur k v

/-- The startech spec-table scan: `thead` children update
`current_section` (when their heading text is truthy, also initializing
the section), other children contribute their rows to the most recent
section. -/
def startechSpecsGo : String → Specs → List TableElem → Specs
  | _, specs, [] => specs
  | cur, specs, .theadE ht :: rest =>
    (match ht with
     | some h =>
       if h ≠ "" then
         let cs := cleanText h
         startechSpecsGo cs
           (if lookupA specs cs = none then specs ++ [(cs, [])] else specs) rest
       else startechSpecsGo cur specs rest
     | none => startechSpecsGo cur specs rest)
  | cur, specs, .tbodyE rows :: rest =>
      startechSpecsGo cur (rows.foldl (stRowStep cur) specs) rest

/-- Method `StartechProductDetailsSpider.parse_product_detail`'s specification
scan, starting from the default section `"General"` and an empty dict. -/
def startechSpecs (elems : List TableElem) : Specs :=
  startechSpecsGo "General" [] elems

/-- One matched ryans spec row: the heading text of its ancestor heading
element when one exists, and the `span.att-title` / `span.att-value`
text nodes. -/
structure RyRow where
  headingText : Option String
  keyTexts : List String
  valueTexts : List String
deriving DecidableEq, Repr

/-- The key/value pair a ryans row records (`key = clean_text(" "
.join(key_list)) if key_list else None`, likewise for the value, then
`if key and value`). -/
def ryKV (r : RyRow) : Option (String × String) :=
  let key := match r.keyTexts with
    | [] => ""
    | ks => cleanText (joinSpaceStr ks)
  let value := match r.valueTexts with
    | [] => ""
    | vs => cleanText (joinSpaceStr vs)
  if key ≠ "" ∧ value ≠ "" then some (key, value) else none

/-- The ryans spec-row scan: a row whose ancestor heading has truthy text
updates `current_section` (initializing it in `specs`); then the row's
key/value pair, when both sides are non-empty, is stored under the
current section. -/
def ryansSpecsGo : String → Specs → List RyRow → Specs
  | _, specs, [] => specs
  | cur, specs, r :: rest =>
    let step : String × Specs :=
      match r.headingText with
      | some h =>
        if h ≠ "" then
          let cs := cleanText h
          (cs, if lookupA specs cs = none then specs ++ [(cs, [])] else specs)
        else (cur, specs)
      | none => (cur, specs)
    match ryKV r with
    | some (k, v) => ryansSpecsGo step.1 (insertKV step.2 step.1 k v) rest
    | none => ryansSpecsGo step.1 step.2 rest

/-- Method `RyansProductDetailsSpider.parse_product_detail`'s specification
scan over the matched rows, starting from the default section
`"General"`. -/
def ryansSpecs (rows : List RyRow) : Specs :=
  ryansSpecsGo "General" [] rows

/-! Section: `CustomRetryMiddleware` (`middlewares.py`) -/

/-- A request as the retry layer sees it: its URL, its `meta` context,
and the `retry_times` counter the retry helper maintains. -/
structure Req where
  url : String
  meta : List (String × String)
  retryTimes : Nat
deriving DecidableEq, Repr

/-- Modelled from the spec: the inherited `RetryMiddleware._retry` helper
(scrapy library code, not part of this repository) retries the same
request — same URL and context — up to the configured bounded retry
count, returning `none` once retries are exhausted. -/
def retryHelper (maxRetries : Nat) (req : Req) : Option Req :=
  let retries := req.retryTimes + 1
  if retries ≤ maxRetries then some { req with retryTimes := retries } else none

/-- Result of `process_response`: a retry request or the response passed
through. -/
inductive RespResult where
  | retryReq (r : Req) : RespResult
  | passThrough (status : Nat) : RespResult
deriving DecidableEq, Repr

/-- Method `CustomRetryMiddleware.process_response`: retry on status 403 or 429
(falling back to the response when retries are exhausted —
`self._retry(...) or response`), pass every other response through. -/
def processResponse (maxRetries : Nat) (req : Req) (status : Nat) : RespResult :=
  if status = 403 ∨ status = 429 then
    match retryHelper maxRetries req with
    | some r => .retryReq r
    | none => .passThrough status
  else .passThrough status

/-- Method `CustomRetryMiddleware.process_exception`: attempt a retry on any
network-level exception (`none` = exhausted, the failure is terminal). -/
def processException (maxRetries : Nat) (req : Req) : Option Req :=
  retryHelper maxRetries req

/-! Section: `JsonLinesExportPipeline` (`pipelines.py`)

JSON serialization (`json.dumps` under `try/except TypeError`) is an
external black box; an item carries the outcome of `_serialize_item` as
an `Option String` (`none` = `TypeError`, logged, item skipped). -/

/-- An item at the sink, abstracted by its serialization outcome. -/
structure SinkItem where
  json : Option String
deriving DecidableEq, Repr

/-- The sink's per-run state: whether the file handle is open, the
`items_written` counter, and the lines written so far. -/
structure SinkState where
  fileOpen : Bool
  itemsWritten : Nat
  lines : List String
deriving DecidableEq, Repr

/-- Method `JsonLinesExportPipeline.process_item` for an in-memory file model:
with no open handle the item is skipped; a serialization failure returns
the item unchanged without writing; a successful serialization appends
exactly one line and increments the counter. The item is returned in
every branch. -/
def sinkProcessItem (st : SinkState) (item : SinkItem) : SinkState × SinkItem :=
  if st.fileOpen = false then (st, item)
  else
    match item.json with
    | none => (st, item)
    | some s =>
        ({ st with itemsWritten := st.itemsWritten + 1, lines := st.lines ++ [s] }, item)

deriving instance DecidableEq for Except

/-! Section: Helper lemmas -/

theorem lookupA_updA_same {β : Type} (d : List (String × β)) (f : String) (v : β) :
    lookupA (updA d f v) f = some v := by
  induction d with
  | nil => simp [updA, lookupA]
  | cons p rest ih =>
    rcases p with ⟨k, w⟩
    by_cases h : k = f
    · subst h; simp [updA, lookupA]
    · simp [updA, h, lookupA, ih]

theorem lookupA_updA_other {β : Type} (d : List (String × β)) (f g : String)
    (v : β) (hg : g ≠ f) : lookupA (updA d f v) g = lookupA d g := by
  have hfg : ¬ f = g := fun h => hg h.symm
  induction d with
  | nil => simp [updA, lookupA, hfg]
  | cons p rest ih =>
    rcases p with ⟨k, w⟩
    by_cases h : k = f
    · subst h; simp [updA, lookupA, hfg]
    · simp [updA, h, lookupA, ih]

theorem getF_updA_same (it : Item) (f : String) (v : Value) :
    getF (updA it f v) f = v := by
  simp [getF, lookupA_updA_same]

theorem getF_updA_other (it : Item) (f g : String) (v : Value) (hg : g ≠ f) :
    getF (updA it f v) g = getF it g := by
  simp [getF, lookupA_updA_other it f g v hg]

theorem dropDupRun_fst (sp : String) :
    ∀ (items : List Item) (seen : List (String × Value)),
      (dropDupRun sp seen items).map Prod.fst = items := by
  intro items
  induction items with
  | nil => intro seen; rfl
  | cons it rest ih => intro seen; simp [dropDupRun, ih]

theorem dropDupRun_flags_aux (sp kf : String)
    (hk : DUPLICATE_KEY_FIELD_MAP sp = some kf) :
    ∀ (items : List Item) (seen : List (String × Value)) (prev : List Value),
      (∀ it ∈ items, truthy (getF it kf) = true) →
      (∀ v : Value, (kf, v) ∈ seen ↔ v ∈ prev) →
      (dropDupRun sp seen items).map Prod.snd =
        firstSeenFlags (fun it => getF it kf) prev items := by
  intro items
  induction items with
  | nil => intro seen prev _ _; rfl
  | cons it rest ih =>
    intro seen prev htr hinv
    have htrIt : truthy (getF it kf) = true := htr it (List.mem_cons_self _ _)
    have htrRest : ∀ x ∈ rest, truthy (getF x kf) = true :=
      fun x hx => htr x (List.mem_cons_of_mem _ hx)
    by_cases hmem : (kf, getF it kf) ∈ seen
    · have hpv : getF it kf ∈ prev := (hinv _).mp hmem
      have hstep : dropDupProcess sp seen it = (none, seen) := by
        simp [dropDupProcess, hk, htrIt, hmem]
      have hinv' : ∀ v : Value, (kf, v) ∈ seen ↔ v ∈ getF it kf :: prev := by
        intro v
        constructor
        · intro hv; exact List.mem_cons_of_mem _ ((hinv v).mp hv)
        · intro hv
          rcases List.mem_cons.mp hv with hv | hv
          · subst hv; exact hmem
          · exact (hinv v).mpr hv
      simp [dropDupRun, hstep, firstSeenFlags, hpv, ih seen _ htrRest hinv']
    · have hpv : getF it kf ∉ prev := fun hp => hmem ((hinv _).mpr hp)
      have hstep : dropDupProcess sp seen it =
          (some it, (kf, getF it kf) :: seen) := by
        simp [dropDupProcess, hk, htrIt, hmem]
      have hinv' : ∀ v : Value,
          (kf, v) ∈ (kf, getF it kf) :: seen ↔ v ∈ getF it kf :: prev := by
        intro v
        constructor
        · intro hv
          rcases List.mem_cons.mp hv with hv | hv
          · exact List.mem_cons.mpr (Or.inl (congrArg Prod.snd hv))
          · exact List.mem_cons_of_mem _ ((hinv v).mp hv)
        · intro hv
          rcases List.mem_cons.mp hv with hv | hv
          · subst hv; exact List.mem_cons_self _ _
          · exact List.mem_cons_of_mem _ ((hinv v).mpr hv)
      simp [dropDupRun, hstep, firstSeenFlags, hpv, ih _ _ htrRest hinv']

/-! Section: Claim theorems -/

/-- C1: For a spider with a configured uniqueness-key field, over a
run (which always starts from an empty `keys_seen` set — the pipeline is
rebuilt per crawl, so keys are not persisted across runs) in which every
record carries a truthy key value: every record is passed on in order,
the forwarded/dropped flags follow the first-seen-wins pattern (the
first record bearing a key value is returned, every later record with
the same key raises `DropItem`), and each processing step only grows the
seen-key set. -/
theorem dropDuplicates_first_seen_wins (sp kf : String) (items : List Item)
    (hk : DUPLICATE_KEY_FIELD_MAP sp = some kf)
    (htr : ∀ it ∈ items, truthy (getF it kf) = true) :
    (dropDupRun sp [] items).map Prod.fst = items ∧
    (dropDupRun sp [] items).map Prod.snd =
      firstSeenFlags (fun it => getF it kf) [] items ∧
    ∀ (seen : List (String × Value)) (it : Item) (p : String × Value),
      p ∈ seen → p ∈ (dropDupProcess sp seen it).2 := by
  refine ⟨dropDupRun_fst sp items [],
    dropDupRun_flags_aux sp kf hk items [] [] htr (by simp), ?_⟩
  intro seen it p hp
  unfold dropDupProcess
  cases DUPLICATE_KEY_FIELD_MAP sp with
  | none => exact hp
  | some g =>
    simp only []
    split_ifs <;> first
      | exact hp
      | exact List.mem_cons_of_mem _ hp

theorem dropDuplicates_first_seen_wins_witness :
    (dropDupRun "ryans_categories" []
      [[("category_url", .vstr "u")], [("category_url", .vstr "u")],
       [("category_url", .vstr "v")]]).map Prod.snd =
      firstSeenFlags (fun it => getF it "category_url") []
        [[("category_url", .vstr "u")], [("category_url", .vstr "u")],
         [("category_url", .vstr "v")]] :=
  (dropDuplicates_first_seen_wins "ryans_categories" "category_url"
    [[("category_url", .vstr "u")], [("category_url", .vstr "u")],
     [("category_url", .vstr "v")]] (by decide) (by decide)).2.1

/-- C10: A record processed for a spider with no configured key
field, or whose key field holds a falsy value, is returned unchanged
and leaves the seen-key set untouched — it bypasses deduplication
instead of colliding on an empty key. -/
theorem dropDuplicates_bypass_unkeyed (sp : String)
    (seen : List (String × Value)) (it : Item) :
    (DUPLICATE_KEY_FIELD_MAP sp = none →
      dropDupProcess sp seen it = (some it, seen)) ∧
    ∀ kf, DUPLICATE_KEY_FIELD_MAP sp = some kf →
      truthy (getF it kf) = false →
      dropDupProcess sp seen it = (some it, seen) := by
  constructor
  · intro h; simp [dropDupProcess, h]
  · intro kf h htr; simp [dropDupProcess, h, htr]

theorem dropDuplicates_bypass_unkeyed_witness :
    dropDupProcess "some_other_spider" [] [] = (some [], []) ∧
    dropDupProcess "ryans_categories" [] [] = (some [], []) :=
  ⟨(dropDuplicates_bypass_unkeyed "some_other_spider" [] []).1 (by decide),
   (dropDuplicates_bypass_unkeyed "ryans_categories" [] []).2 "category_url"
     (by decide) (by decide)⟩

theorem priceInvalid_iff (v : Value) :
    priceInvalid v = true ↔
      (v = .vnone ∨ ∃ q : ℚ, v = .vnum q ∧ q ≤ 0) := by
  cases v <;> simp [priceInvalid]

theorem mem_missingEssential (ess : List String) (it : Item) (f : String)
    (hf : f ∈ ess) (htr : truthy (getF it f) = false) :
    f ∈ missingEssential ess it := by
  have hb : f ∈ ess.filter (fun g => ¬ truthy (getF it g)) :=
    List.mem_filter.mpr ⟨hf, by simp [htr]⟩
  simp only [missingEssential]
  split_ifs
  · exact List.mem_append_left _ hb
  · exact hb

theorem missingEssential_ne_nil (ess : List String) (it : Item) :
    missingEssential ess it ≠ [] ↔
      ((∃ f ∈ ess, truthy (getF it f) = false) ∨
        ("price" ∈ ess ∧ priceInvalid (getF it "price") = true)) := by
  simp only [missingEssential]
  split_ifs with hc
  · simp only [ne_eq, List.append_eq_nil, List.cons_ne_self, and_false,
      not_false_eq_true, true_iff]
    exact Or.inr hc
  · constructor
    · intro hne
      rcases List.exists_mem_of_ne_nil _ hne with ⟨f, hf⟩
      have := List.mem_filter.mp hf
      exact Or.inl ⟨f, this.1, by simpa using this.2⟩
    · intro h
      rcases h with ⟨f, hf, htr⟩ | h
      · intro hnil
        have hmem : f ∈ ess.filter (fun g => ¬ truthy (getF it g)) :=
          List.mem_filter.mpr ⟨hf, by simp [htr]⟩
        rw [hnil] at hmem
        exact absurd hmem (List.not_mem_nil f)
      · exact absurd h hc

/-- C2: For every record (whose `price` field, as produced by the
normalizer, is a number or absent), `RequiredFieldsPipeline.process_item`
raises `DropItem` if and only if some configured essential field is
absent/empty or `price` is essential and absent/non-positive; when it
drops, the warning's field list names every failing essential field; when
the essential check passes, the record is returned. -/
theorem requiredFields_essential_drop (sp : String) (it : Item)
    (hp : getF it "price" = .vnone ∨ ∃ q : ℚ, getF it "price" = .vnum q) :
    ((∃ msg, requiredFieldsProcess sp it = .error msg) ↔
      ((∃ f ∈ ESSENTIAL_FIELDS_MAP sp, truthy (getF it f) = false) ∨
        ("price" ∈ ESSENTIAL_FIELDS_MAP sp ∧
          (getF it "price" = .vnone ∨
            ∃ q : ℚ, getF it "price" = .vnum q ∧ q ≤ 0)))) ∧
    (∀ msg, requiredFieldsProcess sp it = .error msg →
      msg = missingEssential (ESSENTIAL_FIELDS_MAP sp) it ∧
      ∀ f ∈ ESSENTIAL_FIELDS_MAP sp, truthy (getF it f) = false → f ∈ msg) ∧
    (missingEssential (ESSENTIAL_FIELDS_MAP sp) it = [] →
      ∃ it', requiredFieldsProcess sp it = .ok it') := by
  have hbridge :
      ((∃ f ∈ ESSENTIAL_FIELDS_MAP sp, truthy (getF it f) = false) ∨
        ("price" ∈ ESSENTIAL_FIELDS_MAP sp ∧
          priceInvalid (getF it "price") = true)) ↔
      ((∃ f ∈ ESSENTIAL_FIELDS_MAP sp, truthy (getF it f) = false) ∨
        ("price" ∈ ESSENTIAL_FIELDS_MAP sp ∧
          (getF it "price" = .vnone ∨
            ∃ q : ℚ, getF it "price" = .vnum q ∧ q ≤ 0))) := by
    constructor
    · rintro (h | ⟨hm, hv⟩)
      · exact Or.inl h
      · exact Or.inr ⟨hm, (priceInvalid_iff _).mp hv⟩
    · rintro (h | ⟨hm, hv⟩)
      · exact Or.inl h
      · exact Or.inr ⟨hm, (priceInvalid_iff _).mpr hv⟩
  by_cases hE : missingEssential (ESSENTIAL_FIELDS_MAP sp) it = []
  · have hnoerr : ∀ msg, requiredFieldsProcess sp it ≠ .error msg := by
      intro msg hmsg
      simp only [requiredFieldsProcess, hE, ne_eq, not_true_eq_false,
        if_false] at hmsg
      split_ifs at hmsg
    refine ⟨?_, fun msg hmsg => absurd hmsg (hnoerr msg), ?_⟩
    · constructor
      · rintro ⟨msg, hmsg⟩
        exact absurd hmsg (hnoerr msg)
      · intro h
        have h' := hbridge.mpr h
        exact absurd hE (by simpa using (missingEssential_ne_nil _ it).mpr h')
    · intro _
      simp only [requiredFieldsProcess, hE, ne_eq, not_true_eq_false, if_false]
      split_ifs <;> exact ⟨_, rfl⟩
  · have hproc : requiredFieldsProcess sp it =
        .error (missingEssential (ESSENTIAL_FIELDS_MAP sp) it) := by
      simp only [requiredFieldsProcess, ne_eq, hE, not_false_eq_true, if_true]
    refine ⟨?_, ?_, fun h => absurd h hE⟩
    · exact iff_of_true ⟨_, hproc⟩
        (hbridge.mp ((missingEssential_ne_nil (ESSENTIAL_FIELDS_MAP sp) it).mp hE))
    · intro msg hmsg
      rw [hproc] at hmsg
      have hmeq : msg = missingEssential (ESSENTIAL_FIELDS_MAP sp) it :=
        (Except.error.inj hmsg).symm
      refine ⟨hmeq, ?_⟩
      intro f hf htr
      rw [hmeq]
      exact mem_missingEssential (ESSENTIAL_FIELDS_MAP sp) it f hf htr

theorem requiredFields_essential_drop_witness :
    ∃ msg, requiredFieldsProcess "ryans_product_details"
      [("name", .vstr "P"), ("url", .vstr "u")] = .error msg :=
  ((requiredFields_essential_drop "ryans_product_details"
      [("name", .vstr "P"), ("url", .vstr "u")] (Or.inl (by decide))).1).mpr
    (Or.inl ⟨"price", by decide, by decide⟩)

theorem importantTag_specs (v : Value) :
    (importantTag "specifications" v = none ↔ ¬ specBad v) ∧
    (specBad v →
      importantTag "specifications" v = some "specifications (None)" ∨
      importantTag "specifications" v = some "specifications (not dict)" ∨
      importantTag "specifications" v = some "specifications (empty dict)") := by
  cases v with
  | vnone => constructor <;> simp [importantTag, specBad, isDictV, truthy]
  | vstr s => constructor <;> simp [importantTag, specBad, isDictV, truthy]
  | vnum q => constructor <;> simp [importantTag, specBad, isDictV, truthy]
  | vdict d =>
    cases d <;> constructor <;> simp [importantTag, specBad, isDictV, truthy]

theorem not_specBad_specGood (v : Value) (h : ¬ specBad v) : specGood v := by
  cases v with
  | vdict d =>
    cases d with
    | nil => exact absurd (Or.inr (Or.inr rfl)) h
    | cons x rest => exact Or.inr ⟨x :: rest, rfl, by simp⟩
  | vnone => exact absurd (Or.inl rfl) h
  | vstr s => exact absurd (Or.inr (Or.inl (by simp [specBad]))) h
  | vnum q => exact absurd (Or.inr (Or.inl (by simp [specBad]))) h

/-- C3: For a spider whose configured important-field list is
`["specifications"]`, every record that passes the essential-field check
is kept: when its `specifications` value is absent (`None`), not a
mapping, or an empty mapping, the stage returns the record with
`specifications` forced to the absent sentinel; otherwise it returns the
record unchanged. Consequently every record this stage forwards carries
`specifications` equal to a non-empty mapping or the sentinel, and no
other field is modified. -/
theorem requiredFields_important_soft (sp : String) (it : Item)
    (himp : IMPORTANT_FIELDS_MAP sp = ["specifications"])
    (hess : missingEssential (ESSENTIAL_FIELDS_MAP sp) it = []) :
    (specBad (getF it "specifications") →
      requiredFieldsProcess sp it = .ok (setF it "specifications" .vnone)) ∧
    (¬ specBad (getF it "specifications") →
      requiredFieldsProcess sp it = .ok it) ∧
    ∀ it', requiredFieldsProcess sp it = .ok it' →
      specGood (getF it' "specifications") ∧
      ∀ g, g ≠ "specifications" → getF it' g = getF it g := by
  have hmiss : missingImportant (IMPORTANT_FIELDS_MAP sp) it =
      (importantTag "specifications" (getF it "specifications")).toList := by
    rw [himp]
    cases h : importantTag "specifications" (getF it "specifications") <;>
      simp [missingImportant, h]
  have hone : specBad (getF it "specifications") →
      requiredFieldsProcess sp it = .ok (setF it "specifications" .vnone) := by
    intro hbad
    rcases (importantTag_specs (getF it "specifications")).2 hbad with ht | ht | ht <;>
      · simp only [requiredFieldsProcess, hess, ne_eq, not_true_eq_false, if_false]
        rw [if_pos (by simp [hmiss, ht])]
  have htwo : ¬ specBad (getF it "specifications") →
      requiredFieldsProcess sp it = .ok it := by
    intro hgood
    have ht := (importantTag_specs (getF it "specifications")).1.mpr hgood
    simp only [requiredFieldsProcess, hess, ne_eq, not_true_eq_false, if_false]
    rw [if_neg (by simp [hmiss, ht])]
  refine ⟨hone, htwo, ?_⟩
  intro it' hit'
  by_cases hbad : specBad (getF it "specifications")
  · rw [hone hbad] at hit'
    have heq : it' = setF it "specifications" .vnone := (Except.ok.inj hit').symm
    subst heq
    refine ⟨?_, ?_⟩
    · rw [setF, getF_updA_same]
      exact Or.inl rfl
    · intro g hg
      rw [setF, getF_updA_other it "specifications" g _ hg]
  · rw [htwo hbad] at hit'
    have heq : it' = it := (Except.ok.inj hit').symm
    subst heq
    exact ⟨not_specBad_specGood _ hbad, fun g _ => rfl⟩

theorem requiredFields_important_soft_witness :
    requiredFieldsProcess "ryans_product_details"
      [("name", .vstr "P"), ("price", .vnum 5), ("url", .vstr "u"),
       ("sku", .vstr "s"), ("availability", .vstr "A"), ("brand", .vstr "b"),
       ("specifications", .vdict [])] =
      .ok (setF
        [("name", .vstr "P"), ("price", .vnum 5), ("url", .vstr "u"),
         ("sku", .vstr "s"), ("availability", .vstr "A"), ("brand", .vstr "b"),
         ("specifications", .vdict [])] "specifications" .vnone) :=
  (requiredFields_important_soft "ryans_product_details"
    [("name", .vstr "P"), ("price", .vnum 5), ("url", .vstr "u"),
     ("sku", .vstr "s"), ("availability", .vstr "A"), ("brand", .vstr "b"),
     ("specifications", .vdict [])] (by decide) (by decide)).1
    (Or.inr (Or.inr (by decide)))

/-- C4 counterexample: on input `"."` the input is truthy, the
stripped remainder `"."` is non-empty with exactly one decimal point and
parses to no number at all (Python's `float(".")` raises `ValueError`,
caught by the `except` clause), yet `parse_price` returns `None` —
so the claim's "absent exactly when falsy / empty remainder / multiple
dots / non-positive parse" enumeration does not cover this input. -/
theorem parsePrice_dot_counterexample :
    parsePrice "." = none ∧ ¬ parsePriceClaimAbsent "." := by
  refine ⟨by decide, ?_⟩
  intro h
  rcases h with h | h | h | ⟨q, hq, _⟩
  · exact absurd h (by decide)
  · exact absurd h (by decide)
  · exact absurd h (by decide)
  · rw [show parseDecimal (cleanedOf ".") = none from by decide] at hq
    exact Option.noConfusion hq

/-- C4 amended: `parse_price` is total (a Lean function; the
Python `try/except` absorbs the one parse failure) and returns `None`
exactly when the input is falsy, the stripped remainder is empty, the
remainder has more than one decimal point, the remainder fails to parse
(the digit-free remainder `"."`), or the remainder parses to a
non-positive number; any returned price is the remainder's strictly
positive parsed value — in particular `parse_price` never returns 0. -/
theorem parsePrice_absent_amended (text : String) :
    (parsePrice text = none ↔
      (text = "" ∨ cleanedOf text = "" ∨ 1 < dotCount (cleanedOf text) ∨
        parseDecimal (cleanedOf text) = none ∨
        ∃ q : ℚ, parseDecimal (cleanedOf text) = some q ∧ q ≤ 0)) ∧
    ∀ q : ℚ, parsePrice text = some q →
      0 < q ∧ parseDecimal (cleanedOf text) = some q := by
  by_cases h1 : text = ""
  · have hval : parsePrice text = none := by simp [parsePrice, h1]
    rw [hval]
    exact ⟨iff_of_true rfl (Or.inl h1), fun q hq => Option.noConfusion hq⟩
  · by_cases h2 : cleanedOf text = "" ∨ 1 < dotCount (cleanedOf text)
    · have hval : parsePrice text = none := by
        simp only [parsePrice, if_neg h1]
        rw [if_pos h2]
      rw [hval]
      refine ⟨iff_of_true rfl ?_, fun q hq => Option.noConfusion hq⟩
      rcases h2 with h2 | h2
      · exact Or.inr (Or.inl h2)
      · exact Or.inr (Or.inr (Or.inl h2))
    · cases hd : parseDecimal (cleanedOf text) with
      | none =>
        have hval : parsePrice text = none := by
          simp only [parsePrice, if_neg h1]
          rw [if_neg h2, hd]
        rw [hval]
        exact ⟨iff_of_true rfl (Or.inr (Or.inr (Or.inr (Or.inl rfl)))),
          fun q hq => Option.noConfusion hq⟩
      | some p =>
        by_cases hppos : 0 < p
        · have hval : parsePrice text = some p := by
            simp only [parsePrice, if_neg h1]
            rw [if_neg h2, hd]
            show (if 0 < p then some p else none) = some p
            rw [if_pos hppos]
          rw [hval]
          constructor
          · constructor
            · intro h; exact Option.noConfusion h
            · rintro (h | h | h | h | ⟨q, hq, hq0⟩)
              · exact absurd h h1
              · exact absurd (Or.inl h) h2
              · exact absurd (Or.inr h) h2
              · exact Option.noConfusion h
              · rw [Option.some.inj hq] at hppos
                exact absurd hppos (not_lt.mpr hq0)
          · intro q hq
            have hpq := Option.some.inj hq
            subst hpq
            exact ⟨hppos, rfl⟩
        · have hval : parsePrice text = none := by
            simp only [parsePrice, if_neg h1]
            rw [if_neg h2, hd]
            show (if 0 < p then some p else none) = none
            rw [if_neg hppos]
          rw [hval]
          exact ⟨iff_of_true rfl
            (Or.inr (Or.inr (Or.inr (Or.inr ⟨p, rfl, not_lt.mp hppos⟩)))),
            fun q hq => Option.noConfusion hq⟩

theorem parsePrice_absent_amended_witness :
    parsePrice "5" = some 5 ∧ (0 : ℚ) < 5 :=
  ⟨by decide, ((parsePrice_absent_amended "5").2 5 (by decide)).1⟩

/-- C5 counterexample: on the spec's three-link seed page (bare
`#`, the named home link `/`, and `/category/x` named `"  X  "`), the
startech category spider — which, unlike the ryans one, has no
ignored-path set and no comparison against the seed URL — yields two
records, not the one the claim promises for both spiders: the home link
is emitted as a category. -/
theorem startechCategories_scenario_counterexample :
    startechCatParse seedUrl scenarioLinks =
      [⟨"Home", ⟨"https://www.example-site", "/"⟩⟩,
       ⟨"X", ⟨"https://www.example-site", "/category/x"⟩⟩] ∧
    (startechCatParse seedUrl scenarioLinks).length ≠ 1 := by
  constructor <;> decide

/-- C5 amended: The claimed link filtering holds for the ryans
category spider — a candidate link is rejected when it has no href, a
bare-`#` or empty href, an already-seen absolute URL, an ignored (root)
path, the seed URL itself, or an empty cleaned name, and the three-link
scenario yields exactly the one record `{X, <base>/category/x}`. The
startech category spider rejects only missing/`#` hrefs, already-seen
URLs and empty names (no ignored-path or seed-URL rejection), so the
same scenario additionally emits the named home link. -/
theorem categories_scenario_amended :
    ryansCatParse seedUrl scenarioLinks =
      [⟨"X", ⟨"https://www.example-site", "/category/x"⟩⟩] ∧
    startechCatParse seedUrl scenarioLinks =
      [⟨"Home", ⟨"https://www.example-site", "/"⟩⟩,
       ⟨"X", ⟨"https://www.example-site", "/category/x"⟩⟩] ∧
    (∀ (resp : Url) (seen : List Url) (l : NavLink) (rest : List NavLink),
      (l.href = none ∨ ∃ h, l.href = some h ∧
        (h = "" ∨ trimStr h = "#" ∨ urljoin resp h ∈ seen ∨
          (urljoin resp h).path ∈ ryansIgnoredPaths ∨ urljoin resp h = resp ∨
          cleanText l.text = "")) →
      ryansCatAux resp seen (l :: rest) = ryansCatAux resp seen rest) ∧
    (∀ (resp : Url) (seen : List Url) (l : NavLink) (rest : List NavLink),
      (l.href = none ∨ ∃ h, l.href = some h ∧
        (h = "" ∨ trimStr h = "#" ∨ urljoin resp h ∈ seen ∨
          cleanText l.text = "")) →
      startechCatAux resp seen (l :: rest) = startechCatAux resp seen rest) := by
  refine ⟨by decide, by decide, ?_, ?_⟩
  · intro resp seen l rest hrej
    rcases l with ⟨href, text⟩
    rcases hrej with hn | ⟨h, hh, hcond⟩
    · simp only at hn
      subst hn
      rfl
    · simp only at hh
      subst hh
      simp only [ryansCatAux]
      split_ifs with c1 c2 c3
      · rfl
      · rfl
      · exfalso
        simp only at hcond
        rcases hcond with hc | hc | hc | hc | hc | hc
        · exact c1 (Or.inl hc)
        · exact c1 (Or.inr hc)
        · exact c2 (Or.inl hc)
        · exact c2 (Or.inr (Or.inl hc))
        · exact c2 (Or.inr (Or.inr hc))
        · exact c3 hc
      · rfl
  · intro resp seen l rest hrej
    rcases l with ⟨href, text⟩
    rcases hrej with hn | ⟨h, hh, hcond⟩
    · simp only at hn
      subst hn
      rfl
    · simp only at hh
      subst hh
      simp only [startechCatAux]
      split_ifs with c1 c2 c3
      · rfl
      · rfl
      · exfalso
        simp only at hcond
        rcases hcond with hc | hc | hc | hc
        · exact c1 (Or.inl hc)
        · exact c1 (Or.inr hc)
        · exact c2 hc
        · exact c3 hc
      · rfl

theorem categories_scenario_amended_witness :
    ryansCatAux seedUrl [] [⟨some "#", "Menu"⟩] = ryansCatAux seedUrl [] [] :=
  categories_scenario_amended.2.2.1 seedUrl [] ⟨some "#", "Menu"⟩ []
    (Or.inr ⟨"#", rfl, Or.inr (Or.inl (by decide))⟩)

/-- C7: During specification-table extraction, the current-section
label tracking works as specified: the spec's scenario — heading
`General`, two key/value rows, heading `Display`, one row — yields
`{General: {k1: v1, k2: v2}, Display: {k3: v3}}` for both product
spiders' scanners, and a data row whose key or value is missing/empty
after normalization leaves the accumulated specifications unchanged
(it is skipped, not an error). -/
theorem specifications_section_tracking :
    startechSpecs
      [.theadE (some "General"),
       .tbodyE [⟨some "k1", ["v1"]⟩, ⟨some "k2", ["v2"]⟩],
       .theadE (some "Display"),
       .tbodyE [⟨some "k3", ["v3"]⟩]] =
      [("General", [("k1", "v1"), ("k2", "v2")]), ("Display", [("k3", "v3")])] ∧
    ryansSpecs
      [⟨some "General", ["k1"], ["v1"]⟩, ⟨none, ["k2"], ["v2"]⟩,
       ⟨some "Display", ["k3"], ["v3"]⟩] =
      [("General", [("k1", "v1"), ("k2", "v2")]), ("Display", [("k3", "v3")])] ∧
    (∀ (cur : String) (specs : Specs) (rows : List StRow),
      (∀ r ∈ rows, stKV r = none) →
      rows.foldl (stRowStep cur) specs = specs) ∧
    (∀ (cur : String) (specs : Specs) (r : RyRow) (rest : List RyRow),
      r.headingText = none → ryKV r = none →
      ryansSpecsGo cur specs (r :: rest) = ryansSpecsGo cur specs rest) := by
  refine ⟨by decide, by decide, ?_, ?_⟩
  · intro cur specs rows
    induction rows generalizing specs with
    | nil => intro _; rfl
    | cons r rest ih =>
      intro hnone
      have hr : stKV r = none := hnone r (List.mem_cons_self _ _)
      have hrest : ∀ x ∈ rest, stKV x = none :=
        fun x hx => hnone x (List.mem_cons_of_mem _ hx)
      simp only [List.foldl_cons, stRowStep, hr]
      exact ih specs hrest
  · intro cur specs r rest hhead hkv
    rcases r with ⟨ht, ks, vs⟩
    simp only at hhead
    subst hhead
    simp only [ryansSpecsGo, hkv]

theorem specifications_section_tracking_witness :
    ([⟨none, ["v"]⟩] : List StRow).foldl (stRowStep "General") [] = [] :=
  specifications_section_tracking.2.2.1 "General" [] [⟨none, ["v"]⟩] (by decide)

/-- C6 counterexample: a category-file line whose `category_url` is
valid but whose `category_name` is missing is *not* skipped — the ryans
product spider yields a fetch request for it, with the name defaulted to
`"Unknown Category Line 1"` — contradicting the claim that lines missing
the expected name are skipped. -/
theorem startRequests_missing_name_counterexample :
    ryansStart (some
      [JLine.record (some (.jVstr "https://www.ryans.com/category/x")) none]) =
      [⟨"https://www.ryans.com/category/x", "Unknown Category Line 1"⟩] := by
  decide

/-- C6 amended: `start_requests` yields nothing when the category
file is absent; over the file's lines (for either spider's URL validity
check) the yielded requests' URLs are exactly the first-occurrence
deduplication of the URLs of the surviving lines — those that are
well-formed JSON with a truthy string `category_url` passing the
configured URL-prefix/domain check — so a bad line never blocks later
lines; a skipped line merely advances the line counter; and every
yielded request carries a valid URL together with the `category_name`
of the line it came from, defaulted to `"Unknown Category Line <n>"`
when that line has no name (rather than the line being skipped). -/
theorem startRequests_amended :
    ryansStart none = [] ∧ startechStart none = [] ∧
    (∀ (ok : String → Bool) (n : Nat) (processed : List String)
       (lines : List JLine),
      (startAux ok n processed lines).map CatRequest.url =
        dedupFirstAux processed (lines.filterMap (lineUrl ok))) ∧
    (∀ (ok : String → Bool) (n : Nat) (processed : List String) (l : JLine)
       (rest : List JLine),
      lineUrl ok l = none →
      startAux ok n processed (l :: rest) = startAux ok (n + 1) processed rest) ∧
    (∀ (ok : String → Bool) (n : Nat) (processed : List String)
       (lines : List JLine) (r : CatRequest),
      r ∈ startAux ok n processed lines →
      ok r.url = true ∧
        ∃ (k : Nat) (hk : k < lines.length) (nm : Option String),
          lines.get ⟨k, hk⟩ = JLine.record (some (.jVstr r.url)) nm ∧
          r.categoryName = nm.getD (defaultCatName (n + k))) := by
  refine ⟨rfl, rfl, ?_, ?_, ?_⟩
  · intro ok n processed lines
    induction lines generalizing n processed with
    | nil => rfl
    | cons l rest ih =>
      cases l with
      | badJson => simpa [startAux, lineUrl] using ih (n + 1) processed
      | record url name =>
        cases url with
        | none => simpa [startAux, lineUrl] using ih (n + 1) processed
        | some v =>
          cases v with
          | jVother => simpa [startAux, lineUrl] using ih (n + 1) processed
          | jVstr s =>
            by_cases hok : ok s = true
            · by_cases hmem : s ∈ processed
              · simp [startAux, lineUrl, hok, hmem, dedupFirstAux,
                  ih (n + 1) processed]
              · simp [startAux, lineUrl, hok, hmem, dedupFirstAux,
                  ih (n + 1) (s :: processed)]
            · simp [startAux, lineUrl, hok, ih (n + 1) processed]
  · intro ok n processed l rest hskip
    cases l with
    | badJson => rfl
    | record url name =>
      cases url with
      | none => rfl
      | some v =>
        cases v with
        | jVother => rfl
        | jVstr s =>
          have hok : ok s = false := by
            cases hoks : ok s with
            | false => rfl
            | true => simp [lineUrl, hoks] at hskip
          simp [startAux, hok]
  · intro ok n processed lines
    induction lines generalizing n processed with
    | nil => intro r hr; exact absurd hr (List.not_mem_nil r)
    | cons l rest ih =>
      intro r hr
      cases l with
      | badJson =>
        have hr' : r ∈ startAux ok (n + 1) processed rest := by
          simpa [startAux] using hr
        obtain ⟨hok, k, hk, nm, hline, hname⟩ := ih (n + 1) processed r hr'
        refine ⟨hok, k + 1, Nat.succ_lt_succ hk, nm, ?_, ?_⟩
        · simpa using hline
        · rw [hname]; ring_nf
      | record url name =>
        cases url with
        | none =>
          have hr' : r ∈ startAux ok (n + 1) processed rest := by
            simpa [startAux] using hr
          obtain ⟨hok, k, hk, nm, hline, hname⟩ := ih (n + 1) processed r hr'
          refine ⟨hok, k + 1, Nat.succ_lt_succ hk, nm, ?_, ?_⟩
          · simpa using hline
          · rw [hname]; ring_nf
        | some v =>
          cases v with
          | jVother =>
            have hr' : r ∈ startAux ok (n + 1) processed rest := by
              simpa [startAux] using hr
            obtain ⟨hok, k, hk, nm, hline, hname⟩ := ih (n + 1) processed r hr'
            refine ⟨hok, k + 1, Nat.succ_lt_succ hk, nm, ?_, ?_⟩
            · simpa using hline
            · rw [hname]; ring_nf
          | jVstr s =>
            by_cases hok : ok s = true
            · by_cases hmem : s ∈ processed
              · have hr' : r ∈ startAux ok (n + 1) processed rest := by
                  simpa [startAux, hok, hmem] using hr
                obtain ⟨hok', k, hk, nm, hline, hname⟩ :=
                  ih (n + 1) processed r hr'
                refine ⟨hok', k + 1, Nat.succ_lt_succ hk, nm, ?_, ?_⟩
                · simpa using hline
                · rw [hname]; ring_nf
              · have hr' : r = ⟨s, name.getD (defaultCatName n)⟩ ∨
                    r ∈ startAux ok (n + 1) (s :: processed) rest := by
                  simpa [startAux, hok, hmem] using hr
                rcases hr' with hr' | hr'
                · subst hr'
                  refine ⟨hok, 0, Nat.succ_pos _, name, rfl, by simp⟩
                · obtain ⟨hok', k, hk, nm, hline, hname⟩ :=
                    ih (n + 1) (s :: processed) r hr'
                  refine ⟨hok', k + 1, Nat.succ_lt_succ hk, nm, ?_, ?_⟩
                  · simpa using hline
                  · rw [hname]; ring_nf
            · have hr' : r ∈ startAux ok (n + 1) processed rest := by
                simpa [startAux, hok] using hr
              obtain ⟨hok', k, hk, nm, hline, hname⟩ :=
                ih (n + 1) processed r hr'
              refine ⟨hok', k + 1, Nat.succ_lt_succ hk, nm, ?_, ?_⟩
              · simpa using hline
              · rw [hname]; ring_nf

theorem startRequests_amended_witness :
    startAux ryansUrlOk 1 [] [JLine.badJson] = startAux ryansUrlOk 2 [] [] :=
  startRequests_amended.2.2.2.1 ryansUrlOk 1 [] JLine.badJson [] rfl

/-- C8: The retry layer issues a retry of the same request —
preserving its URL and `meta` context, bumping only the retry counter —
if and only if the response status is 403 or 429 (or, for
`process_exception`, a network-level exception occurred) and the bounded
retry count is not yet exhausted; every other HTTP status is passed
through unchanged as a terminal result, and once retries are exhausted a
403/429 response is likewise passed through (terminal). -/
theorem retryMiddleware_policy (maxRetries : Nat) (req : Req) (status : Nat) :
    (∀ r, processResponse maxRetries req status = .retryReq r ↔
      ((status = 403 ∨ status = 429) ∧ req.retryTimes < maxRetries ∧
        r = { req with retryTimes := req.retryTimes + 1 })) ∧
    ((status = 403 ∨ status = 429) → ¬ req.retryTimes < maxRetries →
      processResponse maxRetries req status = .passThrough status) ∧
    (¬ (status = 403 ∨ status = 429) →
      processResponse maxRetries req status = .passThrough status) ∧
    (∀ r, processException maxRetries req = some r ↔
      (req.retryTimes < maxRetries ∧
        r = { req with retryTimes := req.retryTimes + 1 })) ∧
    ∀ r, processResponse maxRetries req status = .retryReq r →
      r.url = req.url ∧ r.meta = req.meta := by
  have hhelp : ∀ r, retryHelper maxRetries req = some r ↔
      (req.retryTimes < maxRetries ∧
        r = { req with retryTimes := req.retryTimes + 1 }) := by
    intro r
    simp only [retryHelper]
    constructor
    · intro h
      split_ifs at h with hle
      · exact ⟨hle, (Option.some.inj h).symm⟩
    · rintro ⟨hlt, rfl⟩
      have hle : req.retryTimes + 1 ≤ maxRetries := hlt
      rw [if_pos hle]
  refine ⟨?_, ?_, ?_, hhelp, ?_⟩
  · intro r
    simp only [processResponse]
    split_ifs with hs
    · cases hh : retryHelper maxRetries req with
      | none =>
        constructor
        · intro h; exact RespResult.noConfusion h
        · rintro ⟨_, hlt, rfl⟩
          rw [(hhelp _).mpr ⟨hlt, rfl⟩] at hh
          exact Option.noConfusion hh
      | some r' =>
        constructor
        · intro h
          have hr := RespResult.retryReq.inj h
          subst hr
          obtain ⟨hlt, heq⟩ := (hhelp _).mp hh
          exact ⟨hs, hlt, heq⟩
        · rintro ⟨_, hlt, rfl⟩
          rw [(hhelp _).mpr ⟨hlt, rfl⟩] at hh
          rw [Option.some.inj hh]
    · constructor
      · intro h; cases h
      · rintro ⟨hs', _, _⟩; exact absurd hs' hs
  · intro hs hexh
    simp only [processResponse, if_pos hs]
    cases hh : retryHelper maxRetries req with
    | none => rfl
    | some r => exact absurd ((hhelp r).mp hh).1 hexh
  · intro hs
    simp only [processResponse, if_neg hs]
  · intro r h
    simp only [processResponse] at h
    split_ifs at h with hs
    · cases hh : retryHelper maxRetries req with
      | none => rw [hh] at h; exact RespResult.noConfusion h
      | some r' =>
        rw [hh] at h
        have hr := RespResult.retryReq.inj h
        subst hr
        obtain ⟨_, heq⟩ := (hhelp _).mp hh
        rw [heq]
        exact ⟨rfl, rfl⟩

theorem retryMiddleware_policy_witness :
    processResponse 2 ⟨"u", [("category_name", "C")], 0⟩ 403 =
      .retryReq ⟨"u", [("category_name", "C")], 1⟩ ∧
    processResponse 2 ⟨"u", [("category_name", "C")], 2⟩ 429 =
      .passThrough 429 ∧
    processResponse 2 ⟨"u", [("category_name", "C")], 0⟩ 404 =
      .passThrough 404 :=
  ⟨(retryMiddleware_policy 2 ⟨"u", [("category_name", "C")], 0⟩ 403).1
      ⟨"u", [("category_name", "C")], 1⟩ |>.mpr
      ⟨Or.inl rfl, by decide, rfl⟩,
   (retryMiddleware_policy 2 ⟨"u", [("category_name", "C")], 2⟩ 429).2.1
      (Or.inr rfl) (by decide),
   (retryMiddleware_policy 2 ⟨"u", [("category_name", "C")], 0⟩ 404).2.2.1
      (by decide)⟩

/-- C9: At the sink, with the export file open: a record that fails
JSON serialization is not written (the line list and the
`items_written` counter are unchanged) yet is still returned, so the run
continues; a record that serializes is written as exactly one appended
line and increments the counter, and is likewise returned. -/
theorem sink_serialization_failure (st : SinkState) (item : SinkItem)
    (hopen : st.fileOpen = true) :
    (item.json = none → sinkProcessItem st item = (st, item)) ∧
    ∀ s, item.json = some s →
      sinkProcessItem st item =
        ({ st with itemsWritten := st.itemsWritten + 1,
                   lines := st.lines ++ [s] }, item) := by
  constructor
  · intro hj; simp [sinkProcessItem, hopen, hj]
  · intro s hj; simp [sinkProcessItem, hopen, hj]

theorem sink_serialization_failure_witness :
    sinkProcessItem ⟨true, 3, ["a"]⟩ ⟨none⟩ = (⟨true, 3, ["a"]⟩, ⟨none⟩) ∧
    sinkProcessItem ⟨true, 3, ["a"]⟩ ⟨some "b"⟩ =
      (⟨true, 4, ["a", "b"]⟩, ⟨some "b"⟩) :=
  ⟨(sink_serialization_failure ⟨true, 3, ["a"]⟩ ⟨none⟩ rfl).1 rfl,
   (sink_serialization_failure ⟨true, 3, ["a"]⟩ ⟨some "b"⟩ rfl).2 "b" rfl⟩

end PriceScraper
